import Mathlib

/-!
Shallow embedding of the ant-colony TSP solver (`aco.py`, class `AntColonySolver`).

Modelling conventions:
* Python floats are modelled as exact rationals (`ℚ`).  The two float
  exponentiations the solver performs (`x ** pheromone_power`,
  `(1+d) ** distance_power`, `10 ** distance_power`, and the optional
  reward/decay powers) are abstracted into an explicit parameter
  `fpow : ℚ → ℚ → ℚ` (base, exponent); all theorems quantify over it or
  instantiate it at integer exponents where it is exact.
* numpy `int32` arrays (`distance`, `path_cost`, `round_trips`) are modelled
  as `ℤ` with an explicit 32-bit wrap applied at every store, and the
  float→int32 cast as truncation toward zero.
* `random.random()` is modelled by a stream of rationals in `[0,1)` threaded
  through the state; one value is consumed exactly when the Python code calls
  `random.random()` (i.e. only when the ant's `remaining` set is non-empty).
* `time.perf_counter() - time_start` is modelled by an epoch-indexed clock
  function `clockFn : ℕ → ℚ`; the Python code reads the clock only inside the
  termination check, once per termination check.
* Python `set`s are modelled as duplicate-free lists; the iteration order of
  a Python set is arbitrary but fixed, which the list order represents.
* The unbounded `while True:` loop is modelled with explicit fuel; `none`
  means the loop has not terminated within the given fuel.
* A raised `IndexError` (empty `problem_path` with a positive ant count) is
  modelled as `Except.error ()`.
-/

namespace ACO

abbrev Node := Nat

/-- Wrap an integer into the int32 range, as numpy int32 stores do. -/
def int32 (z : ℤ) : ℤ := (z + 2 ^ 31) % 2 ^ 32 - 2 ^ 31

/-- Truncation toward zero of a rational, as the C-style float→int cast used
by numpy when a float is stored into an int32 array (`Int` division in Lean
truncates toward zero). -/
def truncQ (q : ℚ) : ℤ := Int.tdiv q.num (q.den : ℤ)

/-- Solver configuration after `AntColonySolver.__init__` has run: the integer
fields have been through `int(...)`, the float fields through `float(...)`,
`start_smell` has been resolved (`start_smell or 10 ** distance_power`), and
the `min(min, max)` normalizations have been applied. -/
structure Config where
  time : ℤ
  minTime : ℤ
  timeout : ℤ
  stopFactor : ℚ
  minRoundTrips : ℤ
  maxRoundTrips : ℤ
  minAnts : ℤ
  maxAnts : ℤ
  antCount : ℤ
  antSpeed : ℤ
  distancePower : ℚ
  pheromonePower : ℚ
  decayPower : ℚ
  rewardPower : ℚ
  bestPathSmell : ℚ
  startSmell : ℚ

/-- Raw keyword arguments of `AntColonySolver.__init__`, before conversion.
Field order: time, min_time, timeout, stop_factor, min_round_trips,
max_round_trips, min_ants, max_ants, ant_count, ant_speed, distance_power,
pheromone_power, decay_power, reward_power, best_path_smell, start_smell. -/
structure ConfigArgs where
  time : ℚ
  minTime : ℚ
  timeout : ℚ
  stopFactor : ℚ
  minRoundTrips : ℚ
  maxRoundTrips : ℚ
  minAnts : ℚ
  maxAnts : ℚ
  antCount : ℚ
  antSpeed : ℚ
  distancePower : ℚ
  pheromonePower : ℚ
  decayPower : ℚ
  rewardPower : ℚ
  bestPathSmell : ℚ
  startSmell : ℚ

/-- `AntColonySolver.__init__` (aco.py lines 39-65): `int(...)`/`float(...)`
conversions, resolution of `start_smell` (`float(start_smell or
10 ** self.distance_power)`, Python truthiness: `0` picks the default), and
the two `min(min, max)` normalizations guarded by truthiness of both bounds. -/
def mkConfig (fpow : ℚ → ℚ → ℚ) (a : ConfigArgs) : Config :=
  let minRT := truncQ a.minRoundTrips
  let maxRT := truncQ a.maxRoundTrips
  let minA := truncQ a.minAnts
  let maxA := truncQ a.maxAnts
  { time := truncQ a.time
    minTime := truncQ a.minTime
    timeout := truncQ a.timeout
    stopFactor := a.stopFactor
    minRoundTrips := if minRT ≠ 0 ∧ maxRT ≠ 0 then min minRT maxRT else minRT
    maxRoundTrips := maxRT
    minAnts := if minA ≠ 0 ∧ maxA ≠ 0 then min minA maxA else minA
    maxAnts := maxA
    antCount := truncQ a.antCount
    antSpeed := truncQ a.antSpeed
    distancePower := a.distancePower
    pheromonePower := a.pheromonePower
    decayPower := a.decayPower
    rewardPower := a.rewardPower
    bestPathSmell := a.bestPathSmell
    startSmell := if a.startSmell = 0 then fpow 10 a.distancePower else a.startSmell }

/-- The default keyword arguments of `AntColonySolver.__init__`. -/
def defaultArgs : ConfigArgs :=
  ⟨0, 0, 0, 2, 10, 0, 0, 0, 64, 1, 1, 5/4, 0, 0, 2, 0⟩

/-- Solver constructed with all-default arguments. -/
def defaultConfig (fpow : ℚ → ℚ → ℚ) : Config := mkConfig fpow defaultArgs

/-- One slot of the `ants` record-of-arrays: `distance`, `path`, `remaining`,
`path_cost`, `round_trips` (aco.py lines 120-126). -/
structure Ant where
  distance : ℤ
  path : List Node
  remaining : List Node
  pathCost : ℤ
  roundTrips : ℤ

instance : Inhabited Ant :=
  ⟨{ distance := 0, path := [], remaining := [], pathCost := 0, roundTrips := 0 }⟩

/-- The mutable state of one `solve` invocation: the ant swarm, the pheromone
field, the solver counters (`self.ants_used`, `self.round_trips`), the
run-local best-path bookkeeping, the random stream and the epoch counter.
`bestPathCost = none` models the initial `np.inf`. -/
structure SolveState where
  ants : List Ant
  pheromones : Node → Node → ℚ
  antsUsed : ℤ
  roundTripsG : ℤ
  bestPath : Option (List Node)
  bestPathCost : Option ℤ
  bestEpochs : List ℕ
  rands : List ℚ
  epoch : ℕ
  epochsUsed : ℕ

/-- A state with no ants; used only as an unreachable match fallback. -/
def emptyState : SolveState :=
  { ants := [], pheromones := fun _ _ => 0, antsUsed := 0, roundTripsG := 0,
    bestPath := none, bestPathCost := none, bestEpochs := [], rands := [],
    epoch := 0, epochsUsed := 0 }

/-- Immutable per-run data derived by `solve_initialize` (aco.py lines 67-110):
the problem's home node, the remaining-set template `set(problem_path[1:])`,
the sanitized ant count and ant speed, and the cached `distance_cost`
(`1 / (1 + d) ** distance_power`).  The distance cache itself is the pure
oracle `cost`. -/
structure RunParams where
  cfg : Config
  fpow : ℚ → ℚ → ℚ
  cost : Node → Node → ℚ
  clockFn : ℕ → ℚ
  home : Node
  resetRemaining : List Node
  antCount : ℤ
  antSpeed : ℤ
  dcost : Node → Node → ℚ

/-- Insert into a sorted list of rationals. -/
def insertQ (x : ℚ) : List ℚ → List ℚ
  | [] => [x]
  | y :: ys => if x ≤ y then x :: y :: ys else y :: insertQ x ys

/-- Insertion sort on rationals. -/
def sortQ : List ℚ → List ℚ
  | [] => []
  | x :: xs => insertQ x (sortQ xs)

/-- `np.median`: middle element of the sorted values, or the mean of the two
middle elements for an even count (0 for the empty list, a corner the solver
reaches only with an empty problem and non-positive `ant_speed`). -/
def medianQ (l : List ℚ) : ℚ :=
  let s := sortQ l
  let n := l.length
  if n = 0 then 0
  else if n % 2 = 1 then s.getD (n / 2) 0
  else (s.getD (n / 2 - 1) 0 + s.getD (n / 2) 0) / 2

/-- All pairwise oracle values, as in
`chain(*[d.values() for d in self.distances.values()])`. -/
def allPairValues (cost : Node → Node → ℚ) (nodes : List Node) : List ℚ :=
  nodes.foldl (fun acc s => acc ++ nodes.map (fun d => cost s d)) []

/-- `solve_initialize` (aco.py lines 67-110): builds the distance/attractiveness
caches and sanitizes `ant_count` (`<= 0` → problem size) and `ant_speed`
(`<= 0` → `median(distances) // 5`, then `int(max(1, ant_speed))`). -/
def mkParams (cfg : Config) (fpow : ℚ → ℚ → ℚ) (cost : Node → Node → ℚ)
    (clockFn : ℕ → ℚ) (nodes : List Node) : RunParams :=
  let ac : ℤ := if cfg.antCount ≤ 0 then (nodes.length : ℤ) else cfg.antCount
  let sp0 : ℚ :=
    if cfg.antSpeed ≤ 0 then ((medianQ (allPairValues cost nodes) / 5).floor : ℤ)
    else (cfg.antSpeed : ℚ)
  { cfg := cfg, fpow := fpow, cost := cost, clockFn := clockFn,
    home := nodes.headD 0,
    resetRemaining := nodes.tail.dedup,
    antCount := ac,
    antSpeed := max 1 (truncQ sp0),
    dcost := fun a b => 1 / fpow (1 + cost a b) cfg.distancePower }

/-- The initial ant swarm and run state of `solve` (aco.py lines 120-131). -/
def initState (P : RunParams) (rands : List ℚ) : SolveState :=
  { ants := List.replicate P.antCount.toNat
      { distance := 0, path := [P.home], remaining := P.resetRemaining,
        pathCost := 0, roundTrips := 0 },
    pheromones := fun _ _ => P.cfg.startSmell,
    antsUsed := 0, roundTripsG := 0,
    bestPath := none, bestPathCost := none, bestEpochs := [],
    rands := rands, epoch := 0, epochsUsed := 0 }

/-- The roulette scan of `next_node` (aco.py lines 255-259): walk the weight
list, subtracting each weight from `rand` while `rand > weight`; `some v` is
a `break` at candidate `v`, `none` means the loop ran off the end (the Python
loop variable then retains the last element iterated). -/
def roulette : List (ℚ × Node) → ℚ → Option Node
  | [], _ => none
  | (w, v) :: rest, r => if r > w then roulette rest (r - w) else some v

/-- `AntColonySolver.next_node` (aco.py lines 238-260).  `rand01` models the
value of `random.random()`.  The two fallback branches model Python's leaked
loop variables: if the roulette scan completes without `break`, `next_node`
is the last element of `weights`; if `weights` is empty, `next_node` is still
bound to the last element iterated by the candidate loop, i.e. the last
element of `remaining`. -/
def nextNode (fpow : ℚ → ℚ → ℚ) (pp : ℚ) (pher dcost : Node → Node → ℚ)
    (path remaining : List Node) (rand01 : ℚ) : Node :=
  let thisN := path.getLastD 0
  match remaining with
  | [] => path.headD 0
  | r :: rs =>
    let cands := (r :: rs).filter (fun v => v ≠ thisN)
    let weights := cands.map (fun v => (fpow (pher thisN v) pp * dcost thisN v, v))
    let wsum := (weights.map Prod.fst).sum
    match roulette weights (rand01 * wsum) with
    | some v => v
    | none =>
      match weights.getLast? with
      | some p => p.2
      | none => (r :: rs).getLastD r

/-- The comparison `ants['path_cost'][i] < best_path_cost` (aco.py line 164),
where `best_path_cost` starts at `np.inf` (`none`). -/
def isBetter (c : ℤ) : Option ℤ → Bool
  | none => true
  | some b => decide (c < b)

/-- The `reward` computation (aco.py lines 183-185): factor
`(best_path_cost / path_cost) ** reward_power` only when `reward_power` is
truthy, times `round_trips ** decay_power` only when `decay_power` is truthy.
At reward time `best_path_cost` is always an integer (`getD 0` is an
unreachable default). -/
def rewardOf (cfg : Config) (fpow : ℚ → ℚ → ℚ) (bestCost : Option ℤ)
    (pathCost : ℤ) (roundTripsG : ℤ) : ℚ :=
  let r1 : ℚ := 1
  let r2 := if cfg.rewardPower ≠ 0 then
      r1 * fpow (((bestCost.getD 0 : ℤ) : ℚ) / (pathCost : ℚ)) cfg.rewardPower
    else r1
  if cfg.decayPower ≠ 0 then r2 * fpow ((roundTripsG : ℚ)) cfg.decayPower else r2

/-- Pointwise update of one directed pheromone entry. -/
def updPher (p : Node → Node → ℚ) (a b : Node) (f : ℚ → ℚ) : Node → Node → ℚ :=
  fun x y => if x = a ∧ y = b then f (p x y) else p x y

/-- The body of the pheromone loop for one edge (aco.py lines 186-194):
add `reward` in both directions, then, if this tour was a new best, multiply
both directions by `best_path_smell`. -/
def reinforceEdge (reward smell : ℚ) (wasBest : Bool) (u v : Node)
    (p : Node → Node → ℚ) : Node → Node → ℚ :=
  let p1 := updPher p u v (fun x => x + reward)
  let p2 := updPher p1 v u (fun x => x + reward)
  if wasBest then
    let p3 := updPher p2 u v (fun x => x * smell)
    updPher p3 v u (fun x => x * smell)
  else p2

/-- Consecutive edges of a path. -/
def pathEdges : List Node → List (Node × Node)
  | [] => []
  | [_] => []
  | u :: v :: rest => (u, v) :: pathEdges (v :: rest)

/-- The full pheromone-trail loop over a completed path (aco.py lines 186-194). -/
def reinforcePath (reward smell : ℚ) (wasBest : Bool) (path : List Node)
    (p : Node → Node → ℚ) : Node → Node → ℚ :=
  (pathEdges path).foldl (fun acc e => reinforceEdge reward smell wasBest e.1 e.2 acc) p

/-- The tour-completion block of `solve` (aco.py lines 157-201): bump
`ants_used`, raise the global `round_trips` to this ant's post-increment
count, record a new best if this tour's cost is strictly lower, lay the
pheromone trail along the completed path, and reset the ant in place. -/
def completeTour (P : RunParams) (st : SolveState) (i : ℕ) (a a1 : Ant)
    (rands' : List ℚ) : SolveState :=
  let rtG := max st.roundTripsG (int32 (a.roundTrips + 1))
  let wasBest := isBetter a1.pathCost st.bestPathCost
  let bestCost' := if wasBest then some a1.pathCost else st.bestPathCost
  let bestPath' := if wasBest then some a1.path else st.bestPath
  let bestEpochs' := if wasBest then st.bestEpochs ++ [st.epoch] else st.bestEpochs
  let reward := rewardOf P.cfg P.fpow bestCost' a1.pathCost rtG
  let pher' := reinforcePath reward P.cfg.bestPathSmell wasBest a1.path st.pheromones
  let a2 : Ant :=
    { distance := 0, path := [P.home], remaining := P.resetRemaining,
      pathCost := 0, roundTrips := int32 (a.roundTrips + 1) }
  { st with
    ants := st.ants.set i a2, pheromones := pher',
    antsUsed := st.antsUsed + 1, roundTripsG := rtG,
    bestPath := bestPath', bestPathCost := bestCost',
    bestEpochs := bestEpochs', rands := rands' }

/-- Processing of one arriving ant `i` whose slot holds `a` (aco.py lines
147-201): select the next node, store the (truncated) leg distance, drop the
current node from `remaining`, accumulate the path cost, append to the path;
then, if the ant has returned home with nothing remaining, run the
tour-completion block. -/
def arriveAnt (P : RunParams) (st : SolveState) (i : ℕ) (a : Ant) : SolveState :=
  let thisN := a.path.getLastD 0
  let rand := st.rands.headD 0
  let rands' := if a.remaining.isEmpty then st.rands else st.rands.tail
  let nextN := nextNode P.fpow P.cfg.pheromonePower st.pheromones P.dcost
      a.path a.remaining rand
  let d := int32 (truncQ (P.cost thisN nextN))
  let a1 : Ant :=
    { a with
      distance := d
      remaining := a.remaining.filter (fun v => v ≠ thisN)
      pathCost := int32 (a.pathCost + d)
      path := a.path ++ [nextN] }
  if a1.remaining.isEmpty ∧ a1.path.headD 0 = a1.path.getLastD 0 then
    completeTour P st i a a1 rands'
  else
    { st with ants := st.ants.set i a1, rands := rands' }

/-- Processing of one arriving ant by index. -/
def arrive (P : RunParams) (st : SolveState) (i : ℕ) : SolveState :=
  match st.ants.get? i with
  | none => st
  | some a => arriveAnt P st i a

/-- `ants['distance'][i] > self.ant_speed`, the travelling test of one epoch. -/
def antTravelling (P : RunParams) (a : Ant) : Bool := decide (a.distance > P.antSpeed)

/-- One epoch of the main loop before the termination check (aco.py lines
134-201): increment the epoch counter, decrement every travelling ant's
countdown, and process the arriving ants in index order
(`np.where(ants_arriving)[0]`).  When every ant is travelling the arriving
index list is empty and the fold is the identity, matching the `continue`. -/
def epochStep (P : RunParams) (st : SolveState) : SolveState :=
  let st1 := { st with epoch := st.epoch + 1 }
  let idx := (List.range st1.ants.length).filter
      (fun i => !antTravelling P (st1.ants.getD i default))
  let ants' := st1.ants.map fun a =>
    if antTravelling P a then { a with distance := int32 (a.distance - P.antSpeed) } else a
  idx.foldl (arrive P) { st1 with ants := ants' }

/-- `all(ants_travelling)` on the pre-decrement distances (aco.py line 141);
true for an empty swarm, as Python's `all` of an empty iterable is. -/
def allTravelling (P : RunParams) (st : SolveState) : Bool :=
  st.ants.all (antTravelling P)

/-- The termination check of `solve` (aco.py lines 203-231), as a pure
decision: `true` means `break`, `false` means `continue`.  The structure
mirrors the source: no break or continue ever fires while `best_epochs` is
empty; when any of `time`/`min_time`/`timeout` is truthy the clock block runs
first and a truthy `time` decides solely by `clock > time`; otherwise the
round-trip, ant-count and stagnation checks run in order. -/
def shouldBreak (cfg : Config) (clock : ℚ) (bestEpochs : List ℕ)
    (roundTrips antsUsed : ℤ) (epoch : ℕ) : Bool :=
  if bestEpochs.isEmpty then false
  else
    let timeBlock : Option Bool :=
      if cfg.time ≠ 0 ∨ cfg.minTime ≠ 0 ∨ cfg.timeout ≠ 0 then
        if cfg.time ≠ 0 then some (decide (clock > (cfg.time : ℚ)))
        else if cfg.minTime ≠ 0 ∧ clock < (cfg.minTime : ℚ) then some false
        else if cfg.timeout ≠ 0 ∧ clock > (cfg.timeout : ℚ) then some true
        else none
      else none
    match timeBlock with
    | some b => b
    | none =>
      if cfg.minRoundTrips ≠ 0 ∧ roundTrips < cfg.minRoundTrips then false
      else if cfg.maxRoundTrips ≠ 0 ∧ roundTrips ≥ cfg.maxRoundTrips then true
      else if cfg.minAnts ≠ 0 ∧ antsUsed < cfg.minAnts then false
      else if cfg.maxAnts ≠ 0 ∧ antsUsed ≥ cfg.maxAnts then true
      else if cfg.stopFactor ≠ 0 ∧ (epoch : ℚ) > (bestEpochs.getLastD 0 : ℚ) * cfg.stopFactor
        then true
      else false

/-- The final bookkeeping after the loop breaks (aco.py lines 234-235):
`self.epochs_used = epoch`; `self.round_trips = np.max(ants["round_trips"])`. -/
def finalize (st : SolveState) : SolveState :=
  { st with epochsUsed := st.epoch,
            roundTripsG := (st.ants.map Ant.roundTrips).foldl max 0 }

/-- The `while True:` loop of `solve` (aco.py lines 133-231) with explicit
fuel; `none` means the loop has not yet terminated within `fuel` epochs.
When every ant is travelling the termination check is skipped (line 142). -/
def solveLoop (P : RunParams) : ℕ → SolveState → Option SolveState
  | 0, _ => none
  | Nat.succ fuel, st =>
    let st' := epochStep P st
    if allTravelling P st then solveLoop P fuel st'
    else if shouldBreak P.cfg (P.clockFn st'.epoch) st'.bestEpochs
        st'.roundTripsG st'.antsUsed st'.epoch then
      some (finalize st')
    else solveLoop P fuel st'

/-- `AntColonySolver.solve` on a fresh solver (aco.py lines 112-236):
initialization followed by the epoch loop.  Building the ant swarm indexes
`problem_path[0]`, which raises `IndexError` (`Except.error ()`) on an empty
problem whenever the sanitized ant count is positive. -/
def solveRun (cfg : Config) (fpow : ℚ → ℚ → ℚ) (cost : Node → Node → ℚ)
    (clockFn : ℕ → ℚ) (nodes : List Node) (rands : List ℚ) (fuel : ℕ) :
    Option (Except Unit SolveState) :=
  let P := mkParams cfg fpow cost clockFn nodes
  if nodes.isEmpty ∧ 0 < P.antCount then some (Except.error ())
  else (solveLoop P fuel (initState P rands)).map Except.ok

/-! ### Concrete instantiations used by the concrete-run theorems -/

/-- Exact float power for the exponents 0 and 1, the only exponents the
concrete configurations below use (`x ** 0 = 1`, `x ** 1 = x`). -/
def fpowLin (b e : ℚ) : ℚ := if e = 0 then 1 else b

/-- A clock that never advances (the concrete runs set no time bounds, so the
clock is never consulted). -/
def clk0 : ℕ → ℚ := fun _ => 0

/-- A deterministic random stream: every draw is 0, so the roulette always
selects the first candidate. -/
def r20 : List ℚ := List.replicate 20 0

/-- A valid cost oracle on two nodes: symmetric, non-negative, zero on the
diagonal, distance 1 between distinct nodes. -/
def cost01 : Node → Node → ℚ := fun a b => if a = b then 0 else 1

/-- A valid cost oracle with non-integer distance 3/2 between distinct nodes. -/
def cost32 : Node → Node → ℚ := fun a b => if a = b then 0 else 3/2

/-- Arguments for a small deterministic run: one ant, `min_round_trips = 1`,
`pheromone_power = 1` and `distance_power = 1` (so `fpowLin` is exact),
everything else at its default. -/
def argsA : ConfigArgs :=
  ⟨0, 0, 0, 2, 1, 0, 0, 0, 1, 1, 1, 1, 0, 0, 2, 0⟩

/-- The configuration of the small deterministic runs. -/
def cfgA : Config := mkConfig fpowLin argsA

/-- The exact (un-truncated) sum of oracle distances along consecutive nodes
of a path. -/
def exactPathCost (cost : Node → Node → ℚ) (path : List Node) : ℚ :=
  ((pathEdges path).map (fun e => cost e.1 e.2)).sum

/-- The two-node run of `solve` (nodes `[0, 1]`, unit distances). -/
def c1Run : Option (Except Unit SolveState) :=
  solveRun cfgA fpowLin cost01 clk0 [0, 1] r20 20

/-- The final solver state of the two-node run. -/
def c1St : SolveState :=
  match c1Run with
  | some (Except.ok st) => st
  | _ => emptyState

/-- The single-node run of `solve` (node `[0]`). -/
def c2Run : Option (Except Unit SolveState) :=
  solveRun cfgA fpowLin cost01 clk0 [0] r20 20

/-- The final solver state of the single-node run. -/
def c2St : SolveState :=
  match c2Run with
  | some (Except.ok st) => st
  | _ => emptyState

/-- The two-node run with non-integer leg distance 3/2. -/
def c9Run : Option (Except Unit SolveState) :=
  solveRun cfgA fpowLin cost32 clk0 [0, 1] r20 20

/-- The final solver state of the 3/2-distance run. -/
def c9St : SolveState :=
  match c9Run with
  | some (Except.ok st) => st
  | _ => emptyState

/-- The run parameters of the two-node run. -/
def pA : RunParams := mkParams cfgA fpowLin cost01 clk0 [0, 1]

/-- The two-node run's state after its first epoch. -/
def c4After1 : SolveState := epochStep pA (initState pA r20)

/-- Arguments with `time = 5` and `min_round_trips = 10`, otherwise default. -/
def argsT : ConfigArgs :=
  ⟨5, 0, 0, 2, 10, 0, 0, 0, 64, 1, 1, 5/4, 0, 0, 2, 0⟩

/-- Configuration with a positive `time` budget of 5 and an unmet
`min_round_trips` bound. -/
def cfgT : Config := mkConfig fpowLin argsT

/-- Arguments whose round-trip and ant bounds are all nonzero with the
minimum above the maximum (`min_round_trips = 7 > max_round_trips = 3`,
`min_ants = 5 > max_ants = 2`). -/
def argsW : ConfigArgs :=
  ⟨0, 0, 0, 2, 7, 3, 5, 2, 64, 1, 1, 5/4, 0, 0, 2, 0⟩

/-! ### Claim theorems: concrete runs -/

/-- C1.  The claim "whenever solve returns a best path, that path with the
duplicate closing node excluded is a permutation of the input nodes" fails on
the code: on the two-node problem `[0, 1]` with a valid cost oracle
(symmetric, non-negative, zero self-distance), `solve` returns the best path
`[0, 1, 1, 0]`, and even after dropping the duplicate closing node the list
`[0, 1, 1]` contains node 1 twice — the leaked loop variable in `next_node`
makes every completed tour repeat its last distinct city.  This contradicts
the spec's own testable permutation property (the clear intent of a TSP
solver), so the code is in the wrong. -/
theorem c1_solve_returns_duplicated_node :
    (∀ a b, cost01 a b = cost01 b a) ∧ (∀ a, cost01 a a = 0) ∧
    (∀ a b, 0 ≤ cost01 a b) ∧
    c1Run = some (Except.ok c1St) ∧
    c1St.bestPath = some [0, 1, 1, 0] ∧
    ¬ ([0, 1, 1, 0].dropLast.Nodup : Prop) := by
  refine ⟨?_, ?_, ?_, by with_unfolding_all rfl, by with_unfolding_all rfl, by decide⟩
  · intro a b
    unfold cost01
    by_cases h : a = b
    · rw [h]
    · rw [if_neg h, if_neg (Ne.symm h)]
  · intro a; simp [cost01]
  · intro a b
    unfold cost01
    split <;> norm_num

/-- C9.  Leg distances are stored through a truncating float→int32 cast and
`path_cost` accumulates those truncated values: `truncQ` truncates toward
zero (3/2 ↦ 1, -3/2 ↦ -1), and on the two-node problem with oracle distance
3/2 the solver's exposed `best_path_cost` is 2 (1 + 0 + 1), while the exact
real-valued sum of oracle distances along the returned path `[0, 1, 1, 0]`
is 3. -/
theorem c9_int32_truncated_cost :
    truncQ (3/2) = 1 ∧ truncQ (-(3/2)) = -1 ∧
    c9Run = some (Except.ok c9St) ∧
    c9St.bestPath = some [0, 1, 1, 0] ∧
    c9St.bestPathCost = some 2 ∧
    exactPathCost cost32 [0, 1, 1, 0] = 3 ∧ (2 : ℚ) ≠ 3 := by
  exact ⟨by with_unfolding_all decide, by with_unfolding_all decide,
    by with_unfolding_all rfl, by with_unfolding_all rfl, by with_unfolding_all rfl,
    by with_unfolding_all decide, by norm_num⟩

/-- C2 counterexample.  The claim says a single-node input (and an empty
input) makes `solve` return the no-result value without raising.  On the
code: the single-node run completes zero-cost tours `[0, 0]` and returns
`some [0, 0]` as its best path (not the no-result value), and the empty-input
run raises an `IndexError` while building the ant swarm. -/
theorem c2_counterexample :
    c2Run = some (Except.ok c2St) ∧
    c2St.bestPath = some [0, 0] ∧
    c2St.bestPath ≠ none ∧
    solveRun cfgA fpowLin cost01 clk0 [] r20 20 = some (Except.error ()) := by
  exact ⟨by with_unfolding_all rfl, by with_unfolding_all rfl,
    by with_unfolding_all decide, by with_unfolding_all rfl⟩

/-- C3 counterexample.  The claim says that with `time = T > 0` set the run
stops whenever elapsed time reaches or exceeds `T`.  On the code the test is
strict (`clock > self.time`): with `time = 5`, at least one completed tour,
and elapsed clock exactly 5, the termination check continues (returns
`false`) — and here `min_round_trips = 10` is unmet, so the claim's own
"stops even if min_round_trips is unmet" prediction is violated at
elapsed = T. -/
theorem c3_counterexample :
    cfgT.time = 5 ∧ 0 < cfgT.time ∧ cfgT.minRoundTrips = 10 ∧
    shouldBreak cfgT 5 [1] 0 0 3 = false := by
  exact ⟨by with_unfolding_all decide, by with_unfolding_all decide,
    by with_unfolding_all decide, by with_unfolding_all rfl⟩

/-- C4 counterexample.  The claim says the ant's current node is never a
member of its `remaining` set when `next_node` is invoked.  After the first
epoch of the two-node run the single ant has path `[0, 1]` (current node 1),
its `remaining` set is still `[1]` (the current node is only removed *after*
`next_node` returns, aco.py line 153 vs. 151), and the ant is not
travelling, so the next epoch invokes `next_node` with the current node a
member of `remaining` — the candidate loop's exclusion of the current node
is load-bearing. -/
theorem c4_counterexample :
    (c4After1.ants.getD 0 default).path = [0, 1] ∧
    (c4After1.ants.getD 0 default).path.getLastD 0 = 1 ∧
    (c4After1.ants.getD 0 default).remaining = [1] ∧
    1 ∈ (c4After1.ants.getD 0 default).remaining ∧
    antTravelling pA (c4After1.ants.getD 0 default) = false := by
  exact ⟨by with_unfolding_all rfl, by with_unfolding_all rfl,
    by with_unfolding_all rfl, by with_unfolding_all decide, by with_unfolding_all rfl⟩

/-! ### Claim theorems: constructor normalization -/

/-- Normalization helper: the constructor's conditional `min` lowers the
minimum to the maximum whenever both are truthy. -/
theorem normMin_le (x y : ℤ) (h2 : y ≠ 0)
    (h1 : (if x ≠ 0 ∧ y ≠ 0 then min x y else x) ≠ 0) :
    (if x ≠ 0 ∧ y ≠ 0 then min x y else x) ≤ y := by
  by_cases hc : x ≠ 0 ∧ y ≠ 0
  · rw [if_pos hc]; exact min_le_right x y
  · rw [if_neg hc] at h1 ⊢
    rcases not_and_or.mp hc with h | h
    · exact absurd (not_not.mp h) h1
    · exact absurd h2 (absurd · h)

/-- C10.  After `__init__`, whenever both round-trip bounds are nonzero the
minimum does not exceed the maximum (it was lowered with `min(min, max)`),
and likewise for the ant bounds. -/
theorem c10_min_bounds_normalized (fpow : ℚ → ℚ → ℚ) (a : ConfigArgs) :
    ((mkConfig fpow a).minRoundTrips ≠ 0 → (mkConfig fpow a).maxRoundTrips ≠ 0 →
      (mkConfig fpow a).minRoundTrips ≤ (mkConfig fpow a).maxRoundTrips) ∧
    ((mkConfig fpow a).minAnts ≠ 0 → (mkConfig fpow a).maxAnts ≠ 0 →
      (mkConfig fpow a).minAnts ≤ (mkConfig fpow a).maxAnts) := by
  constructor
  · intro h1 h2
    exact normMin_le _ _ h2 h1
  · intro h1 h2
    exact normMin_le _ _ h2 h1

/-! ### Helper lemmas about the selection policy -/

/-- A candidate returned by the roulette scan is one of the weighted
candidates. -/
theorem roulette_mem : ∀ (ws : List (ℚ × Node)) (r : ℚ) {v : Node},
    roulette ws r = some v → v ∈ ws.map Prod.snd
  | [], _, _, h => by simp [roulette] at h
  | (w, u) :: rest, r, v, h => by
    rw [roulette] at h
    by_cases hc : r > w
    · rw [if_pos hc] at h
      exact List.mem_cons_of_mem _ (roulette_mem rest (r - w) h)
    · rw [if_neg hc] at h
      cases h
      exact List.mem_cons_self _ _

/-- The last element of a list is a member of it. -/
theorem mem_of_getLast?' {α : Type} : ∀ (l : List α) (a : α), l.getLast? = some a → a ∈ l
  | [], _, h => by simp at h
  | [x], a, h => by
    simp at h
    simp [h]
  | x :: y :: t, a, h => by
    rw [List.getLast?_cons_cons] at h
    exact List.mem_cons_of_mem _ (mem_of_getLast?' (y :: t) a h)

/-- A non-empty list has a last element. -/
theorem getLast?_ne_none' {α : Type} : ∀ (l : List α), l ≠ [] → l.getLast? ≠ none
  | [], h => absurd rfl h
  | [_], _ => by simp
  | x :: y :: t, _ => by
    rw [List.getLast?_cons_cons]
    exact getLast?_ne_none' (y :: t) (by simp)

/-- `getLastD` of a non-empty list is a member of it. -/
theorem getLastD_cons_mem {α : Type} : ∀ (rs : List α) (r d : α), (r :: rs).getLastD d ∈ r :: rs
  | [], r, d => by simp
  | x :: xs, r, d => by
    rw [List.getLastD_cons]
    exact List.mem_cons_of_mem _ (getLastD_cons_mem xs x r)

/-- When the candidate list (the remaining nodes other than the current one)
is non-empty, `next_node` returns one of those candidates: the roulette break
returns a weighted candidate, and both Python leftover-variable fallbacks
land on the last weighted candidate. -/
theorem nextNode_mem_cands (fpow : ℚ → ℚ → ℚ) (pp : ℚ) (pher dcost : Node → Node → ℚ)
    (path : List Node) (r : Node) (rs : List Node) (rand : ℚ)
    (h : (r :: rs).filter (fun v => v ≠ path.getLastD 0) ≠ []) :
    nextNode fpow pp pher dcost path (r :: rs) rand ∈
      (r :: rs).filter (fun v => v ≠ path.getLastD 0) := by
  simp only [nextNode]
  cases hr : roulette
      (((r :: rs).filter (fun v => v ≠ path.getLastD 0)).map
        (fun v => (fpow (pher (path.getLastD 0) v) pp * dcost (path.getLastD 0) v, v)))
      (rand * ((((r :: rs).filter (fun v => v ≠ path.getLastD 0)).map
        (fun v => (fpow (pher (path.getLastD 0) v) pp * dcost (path.getLastD 0) v, v))).map
          Prod.fst).sum) with
  | some v =>
    have hm := roulette_mem _ _ hr
    rw [List.map_map] at hm
    simpa using hm
  | none =>
    cases hl : (((r :: rs).filter (fun v => v ≠ path.getLastD 0)).map
        (fun v => (fpow (pher (path.getLastD 0) v) pp * dcost (path.getLastD 0) v, v))).getLast? with
    | some p =>
      have hpmem := mem_of_getLast?' _ _ hl
      obtain ⟨v, hv, hpv⟩ := List.mem_map.mp hpmem
      rw [← hpv]
      simpa using hv
    | none =>
      exact absurd hl (getLast?_ne_none' _ (fun hw => h (by
        rwa [List.map_eq_nil_iff] at hw)))

/-- Whenever `remaining` is non-empty, `next_node` returns a member of
`remaining` (without raising and without performing any division): either a
candidate of the weighted roulette, or — when every candidate was skipped —
the last element of `remaining`, via Python's leaked loop variable. -/
theorem nextNode_mem (fpow : ℚ → ℚ → ℚ) (pp : ℚ) (pher dcost : Node → Node → ℚ)
    (path : List Node) :
    ∀ (remaining : List Node) (rand : ℚ), remaining ≠ [] →
      nextNode fpow pp pher dcost path remaining rand ∈ remaining
  | [], _, h => absurd rfl h
  | r :: rs, rand, _ => by
    by_cases hc : (r :: rs).filter (fun v => v ≠ path.getLastD 0) = []
    · simp only [nextNode]
      rw [hc]
      exact getLastD_cons_mem rs r r
    · exact List.mem_of_mem_filter (nextNode_mem_cands fpow pp pher dcost path r rs rand hc)

/-- When the candidate list is non-empty, the selected node differs from the
current node (the candidate loop skips it). -/
theorem nextNode_ne_this (fpow : ℚ → ℚ → ℚ) (pp : ℚ) (pher dcost : Node → Node → ℚ)
    (path : List Node) (r : Node) (rs : List Node) (rand : ℚ)
    (h : (r :: rs).filter (fun v => v ≠ path.getLastD 0) ≠ []) :
    nextNode fpow pp pher dcost path (r :: rs) rand ≠ path.getLastD 0 := by
  have hm := nextNode_mem_cands fpow pp pher dcost path r rs rand h
  have := List.mem_filter.mp hm
  simpa using this.2

/-! ### Claim theorems: selection policy -/

/-- C7.  When an ant's `remaining` set is non-empty but every candidate
weight is zero or negative (with zero weight sum), `next_node` neither raises
nor divides (the embedding is a total function and the scan only multiplies
and subtracts), and the node it returns is a member of `remaining`. -/
theorem c7_degenerate_weights_select_remaining (fpow : ℚ → ℚ → ℚ) (pp : ℚ)
    (pher dcost : Node → Node → ℚ) (path remaining : List Node) (rand : ℚ)
    (hne : remaining ≠ [])
    (hw : ∀ v ∈ remaining.filter (fun v => v ≠ path.getLastD 0),
      fpow (pher (path.getLastD 0) v) pp * dcost (path.getLastD 0) v ≤ 0)
    (hsum : (((remaining.filter (fun v => v ≠ path.getLastD 0)).map
      (fun v => fpow (pher (path.getLastD 0) v) pp * dcost (path.getLastD 0) v)).sum) = 0) :
    nextNode fpow pp pher dcost path remaining rand ∈ remaining :=
  nextNode_mem fpow pp pher dcost path remaining rand hne

/-- Witness for C7: with uniformly zero pheromones, every candidate weight is
zero and the degenerate selection still returns a member of `remaining`. -/
theorem c7_degenerate_weights_select_remaining_witness :
    (([2, 3] : List Node) ≠ []) ∧
    (∀ v ∈ ([2, 3] : List Node).filter (fun v => v ≠ ([1] : List Node).getLastD 0),
      fpowLin ((fun _ _ => (0 : ℚ)) (([1] : List Node).getLastD 0) v) 1 *
        (fun _ _ => (1 : ℚ)) (([1] : List Node).getLastD 0) v ≤ 0) ∧
    nextNode fpowLin 1 (fun _ _ => 0) (fun _ _ => 1) [1] [2, 3] (1/2) ∈ ([2, 3] : List Node) := by
  refine ⟨by simp, by with_unfolding_all decide, ?_⟩
  exact c7_degenerate_weights_select_remaining fpowLin 1 (fun _ _ => 0) (fun _ _ => 1)
    [1] [2, 3] (1/2) (by simp) (by with_unfolding_all decide)
    (by with_unfolding_all decide)

/-- The truncation of 0 is 0. -/
theorem truncQ_zero : truncQ 0 = 0 := by with_unfolding_all decide

/-- The int32 wrap of 0 is 0. -/
theorem int32_zero : int32 0 = 0 := by decide

/-- C8.  When an ant's `remaining` set is exactly the singleton containing
its current node `t`, `next_node` returns `t` itself (the leftover binding of
the candidate loop variable), and the arrival step therefore stores the
zero-cost self-edge (`distances[t][t] = 0` for a valid oracle), empties
`remaining`, and appends `t` to a path already ending in `t` — the tour being
built contains `t` twice in consecutive positions. -/
theorem c8_singleton_remaining_self_edge (P : RunParams) (st : SolveState) (i : ℕ)
    (a : Ant) (t : Node)
    (hlast : a.path.getLastD 0 = t) (hrem : a.remaining = [t])
    (hcost : P.cost t t = 0) (hhead : a.path.headD 0 ≠ t) :
    nextNode P.fpow P.cfg.pheromonePower st.pheromones P.dcost a.path a.remaining
      (st.rands.headD 0) = t ∧
    arriveAnt P st i a = { st with
      ants := st.ants.set i
        { a with
          distance := 0
          remaining := []
          pathCost := int32 (a.pathCost + 0)
          path := a.path ++ [t] },
      rands := st.rands.tail } := by
  have hpath : a.path ≠ [] := by
    intro h0
    rw [h0] at hlast hhead
    exact hhead hlast
  have hft : ([t] : List Node).filter (fun v => v ≠ t) = [] := by simp
  have hnext : nextNode P.fpow P.cfg.pheromonePower st.pheromones P.dcost a.path
      a.remaining (st.rands.headD 0) = t := by
    rw [hrem]
    simp only [nextNode]
    rw [hlast, hft]
    rfl
  refine ⟨hnext, ?_⟩
  obtain ⟨p0, ps, hps⟩ : ∃ p0 ps, a.path = p0 :: ps := by
    cases hap : a.path with
    | nil => exact absurd hap hpath
    | cons p0 ps => exact ⟨p0, ps, rfl⟩
  have hcond : ¬ ((([] : List Node).isEmpty = true) ∧
      (a.path ++ [t]).headD 0 = (a.path ++ [t]).getLastD 0) := by
    rintro ⟨-, h2⟩
    rw [hps] at h2
    rw [List.getLastD_concat] at h2
    rw [List.cons_append, List.headD_cons] at h2
    rw [hps, List.headD_cons] at hhead
    exact hhead h2
  simp only [arriveAnt, hnext]
  rw [hlast, hrem, hft, if_neg hcond, hcost, truncQ_zero, int32_zero]
  simp

/-- The ant used by the C8 witness: current node 1, `remaining = [1]`. -/
def antW : Ant :=
  { distance := 0, path := [0, 1], remaining := [1], pathCost := 1, roundTrips := 0 }

/-- The state used by the C8 witness. -/
def stW : SolveState := { emptyState with ants := [antW], rands := [0] }

/-- Witness for C8: a concrete ant at node 1 with `remaining = [1]` under the
two-node oracle takes the zero-cost self-edge `1 → 1`. -/
theorem c8_singleton_remaining_self_edge_witness :
    antW.path.getLastD 0 = 1 ∧ antW.remaining = [1] ∧ pA.cost 1 1 = 0 ∧
    antW.path.headD 0 ≠ 1 ∧
    nextNode pA.fpow pA.cfg.pheromonePower stW.pheromones pA.dcost antW.path
      antW.remaining (stW.rands.headD 0) = 1 ∧
    arriveAnt pA stW 0 antW = { stW with
      ants := stW.ants.set 0
        { antW with
          distance := 0
          remaining := []
          pathCost := int32 (antW.pathCost + 0)
          path := antW.path ++ [1] },
      rands := stW.rands.tail } := by
  have h := c8_singleton_remaining_self_edge pA stW 0 antW 1 (by with_unfolding_all rfl)
    (by with_unfolding_all rfl) (by with_unfolding_all decide) (by with_unfolding_all decide)
  exact ⟨by with_unfolding_all rfl, by with_unfolding_all rfl, by with_unfolding_all decide,
    by with_unfolding_all decide, h.1, h.2⟩

/-! ### Generic invariant machinery -/

/-- A predicate preserved by every step of a fold is preserved by the fold. -/
theorem foldl_preserve {σ α : Type} (f : σ → α → σ) (Q : σ → Prop)
    (hstep : ∀ s x, Q s → Q (f s x)) : ∀ (l : List α) (s), Q s → Q (l.foldl f s)
  | [], _, h => h
  | x :: xs, s, h => foldl_preserve f Q hstep xs (f s x) (hstep s x h)

/-- A predicate holding on all elements of a list and on the replacement
element holds on all elements of the updated list. -/
theorem all_of_set {α : Type} {Q : α → Prop} {l : List α} {i : ℕ} {b : α}
    (hl : ∀ a ∈ l, Q a) (hb : Q b) : ∀ a ∈ l.set i b, Q a := by
  intro a ha
  rcases List.mem_or_eq_of_mem_set ha with h | h
  · exact hl a h
  · exact h ▸ hb

/-- A predicate preserved by a function and holding on all elements of a list
holds on all elements of the mapped list. -/
theorem all_of_map {α : Type} {Q : α → Prop} {l : List α} {f : α → α}
    (hf : ∀ a, Q a → Q (f a)) (h : ∀ a ∈ l, Q a) : ∀ a ∈ l.map f, Q a := by
  intro a ha
  obtain ⟨x, hx, rfl⟩ := List.mem_map.mp ha
  exact hf x (h x hx)

/-! ### Best-path-cost bookkeeping lemmas -/

/-- Ordering on `Option ℤ` where `none` is `np.inf`. -/
def leInf (a b : Option ℤ) : Prop :=
  match b with
  | none => True
  | some y =>
    match a with
    | none => False
    | some x => x ≤ y

/-- Reflexivity of `leInf`. -/
theorem leInf_refl : ∀ (a : Option ℤ), leInf a a
  | none => trivial
  | some _ => le_refl _

/-- Transitivity of `leInf`. -/
theorem leInf_trans : ∀ (a b c : Option ℤ), leInf a b → leInf b c → leInf a c
  | _, _, none, _, _ => trivial
  | _, none, some _, _, h2 => (h2 : False).elim
  | none, some _, some _, h1, _ => (h1 : False).elim
  | some _, some _, some _, h1, h2 => le_trans h1 h2

/-- A cost that beats the current best is below it in the `leInf` order. -/
theorem isBetter_le (c : ℤ) (b : Option ℤ) (h : isBetter c b = true) : leInf (some c) b := by
  cases b with
  | none => trivial
  | some x => exact le_of_lt (of_decide_eq_true h)

/-- The best path cost after tour completion. -/
theorem completeTour_bestPathCost (P : RunParams) (st : SolveState) (i : ℕ)
    (a a1 : Ant) (r' : List ℚ) :
    (completeTour P st i a a1 r').bestPathCost =
      if isBetter a1.pathCost st.bestPathCost then some a1.pathCost
      else st.bestPathCost := rfl

/-- The best path after tour completion. -/
theorem completeTour_bestPath (P : RunParams) (st : SolveState) (i : ℕ)
    (a a1 : Ant) (r' : List ℚ) :
    (completeTour P st i a a1 r').bestPath =
      if isBetter a1.pathCost st.bestPathCost then some a1.path
      else st.bestPath := rfl

/-- The best-epoch history after tour completion. -/
theorem completeTour_bestEpochs (P : RunParams) (st : SolveState) (i : ℕ)
    (a a1 : Ant) (r' : List ℚ) :
    (completeTour P st i a a1 r').bestEpochs =
      if isBetter a1.pathCost st.bestPathCost then st.bestEpochs ++ [st.epoch]
      else st.bestEpochs := rfl

/-- The pheromone field after tour completion. -/
theorem completeTour_pheromones (P : RunParams) (st : SolveState) (i : ℕ)
    (a a1 : Ant) (r' : List ℚ) :
    (completeTour P st i a a1 r').pheromones =
      reinforcePath
        (rewardOf P.cfg P.fpow
          (if isBetter a1.pathCost st.bestPathCost then some a1.pathCost
           else st.bestPathCost)
          a1.pathCost (max st.roundTripsG (int32 (a.roundTrips + 1))))
        P.cfg.bestPathSmell (isBetter a1.pathCost st.bestPathCost) a1.path
        st.pheromones := rfl

/-- `finalize` does not touch the best-path bookkeeping. -/
theorem finalize_bestPathCost (st : SolveState) :
    (finalize st).bestPathCost = st.bestPathCost := rfl

/-- `finalize` does not touch the best path. -/
theorem finalize_bestPath (st : SolveState) : (finalize st).bestPath = st.bestPath := rfl

/-- One arrival never increases the best path cost. -/
theorem arriveAnt_best_le (P : RunParams) (st : SolveState) (i : ℕ) (a : Ant) :
    leInf (arriveAnt P st i a).bestPathCost st.bestPathCost := by
  simp only [arriveAnt]
  split
  · rw [completeTour_bestPathCost]
    by_cases hb : isBetter
        (int32 (a.pathCost + int32 (truncQ (P.cost (a.path.getLastD 0)
          (nextNode P.fpow P.cfg.pheromonePower st.pheromones P.dcost a.path a.remaining
            (st.rands.headD 0))))))
        st.bestPathCost = true
    · rw [if_pos hb]
      exact isBetter_le _ _ hb
    · rw [if_neg hb]
      exact leInf_refl _
  · exact leInf_refl _

/-- Arrival processing by index never increases the best path cost. -/
theorem arrive_best_le (P : RunParams) (st : SolveState) (i : ℕ) :
    leInf (arrive P st i).bestPathCost st.bestPathCost := by
  simp only [arrive]
  cases h : st.ants.get? i with
  | none => exact leInf_refl _
  | some a => exact arriveAnt_best_le P st i a

/-- One epoch never increases the best path cost. -/
theorem epochStep_best_le (P : RunParams) (st : SolveState) :
    leInf (epochStep P st).bestPathCost st.bestPathCost := by
  simp only [epochStep]
  exact foldl_preserve (arrive P) (fun s => leInf s.bestPathCost st.bestPathCost)
    (fun s x hq => leInf_trans _ _ _ (arrive_best_le P s x) hq) _ _ (leInf_refl _)

/-- Across a whole (possibly truncated) run, the best path cost never
increases. -/
theorem solveLoop_best_le (P : RunParams) : ∀ (fuel : ℕ) (st : SolveState),
    leInf (match solveLoop P fuel st with
      | some st' => st'.bestPathCost
      | none => st.bestPathCost) st.bestPathCost
  | 0, st => leInf_refl _
  | Nat.succ fuel, st => by
    simp only [solveLoop]
    by_cases ht : allTravelling P st = true
    · rw [if_pos ht]
      have ih := solveLoop_best_le P fuel (epochStep P st)
      cases h : solveLoop P fuel (epochStep P st) with
      | none => exact leInf_refl _
      | some st2 =>
        rw [h] at ih
        exact leInf_trans _ _ _ ih (epochStep_best_le P st)
    · rw [if_neg ht]
      by_cases hb : shouldBreak P.cfg (P.clockFn (epochStep P st).epoch)
          (epochStep P st).bestEpochs (epochStep P st).roundTripsG
          (epochStep P st).antsUsed (epochStep P st).epoch = true
      · rw [if_pos hb]
        show leInf (finalize (epochStep P st)).bestPathCost st.bestPathCost
        rw [finalize_bestPathCost]
        exact epochStep_best_le P st
      · rw [if_neg hb]
        have ih := solveLoop_best_le P fuel (epochStep P st)
        cases h : solveLoop P fuel (epochStep P st) with
        | none => exact leInf_refl _
        | some st2 =>
          rw [h] at ih
          exact leInf_trans _ _ _ ih (epochStep_best_le P st)

/-- C6.  Within one solve invocation `best_path_cost` starts at infinity, is
reassigned by an arrival only to the arriving ant's strictly lower tour cost,
never increases across a single epoch, and never increases across the whole
loop. -/
theorem c6_best_path_cost_monotone :
    (∀ P rands, (initState P rands).bestPathCost = none) ∧
    (∀ P st i, (arrive P st i).bestPathCost = st.bestPathCost ∨
      ∃ c, (arrive P st i).bestPathCost = some c ∧ isBetter c st.bestPathCost = true) ∧
    (∀ P st, leInf (epochStep P st).bestPathCost st.bestPathCost) ∧
    (∀ P fuel st, leInf (match solveLoop P fuel st with
      | some st' => st'.bestPathCost
      | none => st.bestPathCost) st.bestPathCost) := by
  refine ⟨fun _ _ => rfl, ?_, epochStep_best_le, solveLoop_best_le⟩
  intro P st i
  simp only [arrive]
  cases h : st.ants.get? i with
  | none => exact Or.inl rfl
  | some a =>
    simp only [arriveAnt]
    split
    · rw [completeTour_bestPathCost]
      by_cases hb : isBetter
          (int32 (a.pathCost + int32 (truncQ (P.cost (a.path.getLastD 0)
            (nextNode P.fpow P.cfg.pheromonePower st.pheromones P.dcost a.path a.remaining
              (st.rands.headD 0))))))
          st.bestPathCost = true
      · rw [if_pos hb]
        exact Or.inr ⟨_, rfl, hb⟩
      · rw [if_neg hb]
        exact Or.inl rfl
    · exact Or.inl rfl

/-! ### Pheromone positivity lemmas -/

/-- A pointwise update with a positivity-preserving function keeps the whole
field positive. -/
theorem updPher_pos (p : Node → Node → ℚ) (a b : Node) (f : ℚ → ℚ)
    (hp : ∀ x y, 0 < p x y) (hf : ∀ q, 0 < q → 0 < f q) :
    ∀ x y, 0 < updPher p a b f x y := by
  intro x y
  unfold updPher
  split
  · exact hf _ (hp x y)
  · exact hp x y

/-- Reinforcing one edge with a positive reward and positive boost keeps the
field positive. -/
theorem reinforceEdge_pos (reward smell : ℚ) (wasBest : Bool) (u v : Node)
    (p : Node → Node → ℚ) (hr : 0 < reward) (hs : 0 < smell)
    (hp : ∀ x y, 0 < p x y) :
    ∀ x y, 0 < reinforceEdge reward smell wasBest u v p x y := by
  have hadd : ∀ q : ℚ, 0 < q → 0 < q + reward := fun q hq => add_pos hq hr
  have hmul : ∀ q : ℚ, 0 < q → 0 < q * smell := fun q hq => mul_pos hq hs
  unfold reinforceEdge
  cases wasBest with
  | false =>
    simp only [Bool.false_eq_true, if_false]
    exact updPher_pos _ _ _ _ (updPher_pos _ _ _ _ hp hadd) hadd
  | true =>
    simp only [if_true]
    exact updPher_pos _ _ _ _
      (updPher_pos _ _ _ _
        (updPher_pos _ _ _ _ (updPher_pos _ _ _ _ hp hadd) hadd) hmul) hmul

/-- Laying a trail along a whole path with positive reward and boost keeps
the field positive. -/
theorem reinforcePath_pos (reward smell : ℚ) (wasBest : Bool) (path : List Node)
    (p : Node → Node → ℚ) (hr : 0 < reward) (hs : 0 < smell)
    (hp : ∀ x y, 0 < p x y) :
    ∀ x y, 0 < reinforcePath reward smell wasBest path p x y := by
  unfold reinforcePath
  exact foldl_preserve _ (fun q => ∀ x y, 0 < q x y)
    (fun q e hq => reinforceEdge_pos reward smell wasBest e.1 e.2 q hr hs hq)
    (pathEdges path) p hp

/-- With both `reward_power` and `decay_power` untruthy (the defaults), the
per-tour reinforcement amount is exactly 1. -/
theorem rewardOf_one (cfg : Config) (fpow : ℚ → ℚ → ℚ) (b : Option ℤ)
    (pc rt : ℤ) (h1 : cfg.rewardPower = 0) (h2 : cfg.decayPower = 0) :
    rewardOf cfg fpow b pc rt = 1 := by
  simp [rewardOf, h1, h2]

/-- One arrival keeps the pheromone field positive when the reward factors
are at their defaults and the best-path boost is positive. -/
theorem arriveAnt_pher_pos (P : RunParams) (st : SolveState) (i : ℕ) (a : Ant)
    (hrp : P.cfg.rewardPower = 0) (hdp : P.cfg.decayPower = 0)
    (hs : 0 < P.cfg.bestPathSmell) (hp : ∀ x y, 0 < st.pheromones x y) :
    ∀ x y, 0 < (arriveAnt P st i a).pheromones x y := by
  simp only [arriveAnt]
  split
  · rw [completeTour_pheromones, rewardOf_one _ _ _ _ _ hrp hdp]
    exact reinforcePath_pos _ _ _ _ _ one_pos hs hp
  · exact hp

/-- Arrival processing by index keeps the pheromone field positive. -/
theorem arrive_pher_pos (P : RunParams) (st : SolveState) (i : ℕ)
    (hrp : P.cfg.rewardPower = 0) (hdp : P.cfg.decayPower = 0)
    (hs : 0 < P.cfg.bestPathSmell) (hp : ∀ x y, 0 < st.pheromones x y) :
    ∀ x y, 0 < (arrive P st i).pheromones x y := by
  simp only [arrive]
  cases h : st.ants.get? i with
  | none => exact hp
  | some a => exact arriveAnt_pher_pos P st i a hrp hdp hs hp

/-- One epoch keeps the pheromone field positive. -/
theorem epochStep_pher_pos (P : RunParams) (st : SolveState)
    (hrp : P.cfg.rewardPower = 0) (hdp : P.cfg.decayPower = 0)
    (hs : 0 < P.cfg.bestPathSmell) (hp : ∀ x y, 0 < st.pheromones x y) :
    ∀ x y, 0 < (epochStep P st).pheromones x y := by
  simp only [epochStep]
  exact foldl_preserve (arrive P) (fun s => ∀ x y, 0 < s.pheromones x y)
    (fun s x hq => arrive_pher_pos P s x hrp hdp hs hq) _ _ hp

/-- The whole loop keeps the pheromone field positive. -/
theorem solveLoop_pher_pos (P : RunParams) (hrp : P.cfg.rewardPower = 0)
    (hdp : P.cfg.decayPower = 0) (hs : 0 < P.cfg.bestPathSmell) :
    ∀ (fuel : ℕ) (st : SolveState), (∀ x y, 0 < st.pheromones x y) →
      ∀ x y, 0 < (match solveLoop P fuel st with
        | some st' => st'
        | none => st).pheromones x y
  | 0, st, hp => hp
  | Nat.succ fuel, st, hp => by
    simp only [solveLoop]
    have hp' := epochStep_pher_pos P st hrp hdp hs hp
    by_cases ht : allTravelling P st = true
    · rw [if_pos ht]
      cases h : solveLoop P fuel (epochStep P st) with
      | none => exact hp
      | some st2 =>
        have ih := solveLoop_pher_pos P hrp hdp hs fuel (epochStep P st) hp'
        rw [h] at ih
        exact ih
    · rw [if_neg ht]
      by_cases hb : shouldBreak P.cfg (P.clockFn (epochStep P st).epoch)
          (epochStep P st).bestEpochs (epochStep P st).roundTripsG
          (epochStep P st).antsUsed (epochStep P st).epoch = true
      · rw [if_pos hb]
        show ∀ x y, 0 < (finalize (epochStep P st)).pheromones x y
        exact hp'
      · rw [if_neg hb]
        cases h : solveLoop P fuel (epochStep P st) with
        | none => exact hp
        | some st2 =>
          have ih := solveLoop_pher_pos P hrp hdp hs fuel (epochStep P st) hp'
          rw [h] at ih
          exact ih

/-- C5.  Under the all-default configuration (in which `start_smell` resolves
to `10 ** distance_power` and `reward_power = decay_power = 0`, so every
reinforcement adds 1 and every best-path boost multiplies by 2), with a
non-negative cost oracle and the resolved start smell positive, every
pheromone entry equals the positive start smell at initialization and stays
strictly positive after every epoch's reinforcements and boosts, for the
whole loop. -/
theorem c5_pheromones_positive (fpow : ℚ → ℚ → ℚ) (cost : Node → Node → ℚ)
    (clockFn : ℕ → ℚ) (nodes : List Node) (rands : List ℚ)
    (hsm : 0 < fpow 10 1) (hcost : ∀ a b, 0 ≤ cost a b) :
    (∀ x y, (initState (mkParams (defaultConfig fpow) fpow cost clockFn nodes)
      rands).pheromones x y = fpow 10 1) ∧
    (∀ x y, 0 < (initState (mkParams (defaultConfig fpow) fpow cost clockFn nodes)
      rands).pheromones x y) ∧
    (∀ st, (∀ x y, 0 < st.pheromones x y) →
      ∀ x y, 0 < (epochStep (mkParams (defaultConfig fpow) fpow cost clockFn nodes)
        st).pheromones x y) ∧
    (∀ fuel st, (∀ x y, 0 < st.pheromones x y) →
      ∀ x y, 0 < (match solveLoop (mkParams (defaultConfig fpow) fpow cost clockFn nodes)
          fuel st with
        | some st' => st'
        | none => st).pheromones x y) := by
  have hinit : ∀ x y, (initState (mkParams (defaultConfig fpow) fpow cost clockFn nodes)
      rands).pheromones x y = fpow 10 1 := by
    intro x y
    with_unfolding_all rfl
  refine ⟨hinit, fun x y => (hinit x y).symm ▸ hsm, ?_, ?_⟩
  · exact fun st hp => epochStep_pher_pos _ st rfl rfl
      (by show (0 : ℚ) < (2 : ℚ); norm_num) hp
  · exact fun fuel st hp => solveLoop_pher_pos _ rfl rfl
      (by show (0 : ℚ) < (2 : ℚ); norm_num) fuel st hp

/-- Witness for C5: under `fpowLin` the resolved default start smell is 10,
the zero oracle is non-negative, and the initial pheromone field of a
two-node default run is uniformly positive. -/
theorem c5_pheromones_positive_witness :
    0 < fpowLin 10 1 ∧ (∀ a b : Node, (0 : ℚ) ≤ (fun _ _ => (0 : ℚ)) a b) ∧
    (∀ x y, 0 < (initState (mkParams (defaultConfig fpowLin) fpowLin (fun _ _ => 0)
      clk0 [0, 1]) r20).pheromones x y) := by
  refine ⟨by with_unfolding_all decide, fun a b => le_refl 0, ?_⟩
  exact (c5_pheromones_positive fpowLin (fun _ _ => 0) clk0 [0, 1] r20
    (by with_unfolding_all decide) (fun a b => le_refl 0)).2.1

/-! ### The loop never returns without a best path -/

/-- Run invariant: whenever the best-epoch history is non-empty, a best path
has been recorded. -/
def BestInv (st : SolveState) : Prop :=
  st.bestEpochs ≠ [] → st.bestPath.isSome = true

/-- One arrival preserves the best-path invariant (a new best records the
path and the epoch together). -/
theorem arriveAnt_bestInv (P : RunParams) (st : SolveState) (i : ℕ) (a : Ant)
    (h : BestInv st) : BestInv (arriveAnt P st i a) := by
  simp only [BestInv, arriveAnt]
  split
  · rw [completeTour_bestEpochs, completeTour_bestPath]
    split
    · intro _
      rfl
    · exact h
  · exact h

/-- Arrival by index preserves the best-path invariant. -/
theorem arrive_bestInv (P : RunParams) (st : SolveState) (i : ℕ)
    (h : BestInv st) : BestInv (arrive P st i) := by
  simp only [arrive]
  cases hg : st.ants.get? i with
  | none => exact h
  | some a => exact arriveAnt_bestInv P st i a h

/-- One epoch preserves the best-path invariant. -/
theorem epochStep_bestInv (P : RunParams) (st : SolveState)
    (h : BestInv st) : BestInv (epochStep P st) := by
  simp only [epochStep]
  exact foldl_preserve (arrive P) BestInv (fun s x hq => arrive_bestInv P s x hq) _ _ h

/-- The termination check never fires while the best-epoch history is empty
(aco.py line 206). -/
theorem shouldBreak_bestEpochs (cfg : Config) (clock : ℚ) (bestEpochs : List ℕ)
    (rt used : ℤ) (epoch : ℕ)
    (h : shouldBreak cfg clock bestEpochs rt used epoch = true) : bestEpochs ≠ [] := by
  intro he
  subst he
  simp [shouldBreak] at h

/-- Whenever the loop breaks, the returned state carries a best path. -/
theorem solveLoop_bestInv (P : RunParams) : ∀ (fuel : ℕ) (st st' : SolveState),
    solveLoop P fuel st = some st' → BestInv st → st'.bestPath.isSome = true
  | 0, st, st', h, _ => by simp [solveLoop] at h
  | Nat.succ fuel, st, st', h, hinv => by
    simp only [solveLoop] at h
    by_cases ht : allTravelling P st = true
    · rw [if_pos ht] at h
      exact solveLoop_bestInv P fuel _ _ h (epochStep_bestInv P st hinv)
    · rw [if_neg ht] at h
      by_cases hb : shouldBreak P.cfg (P.clockFn (epochStep P st).epoch)
          (epochStep P st).bestEpochs (epochStep P st).roundTripsG
          (epochStep P st).antsUsed (epochStep P st).epoch = true
      · rw [if_pos hb] at h
        injection h with h
        have hne := shouldBreak_bestEpochs _ _ _ _ _ _ hb
        have hsome := epochStep_bestInv P st hinv hne
        rw [← h, finalize_bestPath]
        exact hsome
      · rw [if_neg hb] at h
        exact solveLoop_bestInv P fuel _ _ h (epochStep_bestInv P st hinv)

/-- C2 (amended).  `solve` never returns the no-result value: on an empty
input with a positive sanitized ant count it raises an `IndexError`
(modelled as `Except.error ()`), and on any input — in particular a
single-node input — every normal return carries a best path, because every
`break` in the termination check is guarded by a non-empty best-epoch
history. -/
theorem c2_solve_never_returns_none :
    (∀ cfg fpow cost clockFn rands fuel,
      0 < (mkParams cfg fpow cost clockFn []).antCount →
      solveRun cfg fpow cost clockFn [] rands fuel = some (Except.error ())) ∧
    (∀ cfg fpow cost clockFn nodes rands fuel st',
      solveRun cfg fpow cost clockFn nodes rands fuel = some (Except.ok st') →
      st'.bestPath.isSome = true) := by
  constructor
  · intro cfg fpow cost clockFn rands fuel h
    simp only [solveRun]
    rw [if_pos ⟨rfl, h⟩]
  · intro cfg fpow cost clockFn nodes rands fuel st' h
    simp only [solveRun] at h
    split at h
    · simp at h
    · cases hs : solveLoop (mkParams cfg fpow cost clockFn nodes) fuel
          (initState (mkParams cfg fpow cost clockFn nodes) rands) with
      | none =>
        rw [hs] at h
        simp at h
      | some st2 =>
        rw [hs] at h
        simp only [Option.map_some'] at h
        injection h with h
        injection h with h
        subst h
        exact solveLoop_bestInv _ fuel _ _ hs (fun hne => absurd rfl hne)

/-- Witness for C2: the empty-input run with the one-ant configuration
raises, and the single-node run's returned state carries a best path. -/
theorem c2_solve_never_returns_none_witness :
    solveRun cfgA fpowLin cost01 clk0 [] r20 20 = some (Except.error ()) ∧
    c2St.bestPath.isSome = true := by
  constructor
  · exact c2_solve_never_returns_none.1 cfgA fpowLin cost01 clk0 r20 20
      (by with_unfolding_all decide)
  · exact c2_solve_never_returns_none.2 cfgA fpowLin cost01 clk0 [0] r20 20 c2St
      (by with_unfolding_all rfl)

/-! ### The current node and the remaining set -/

/-- Mid-tour invariant of one ant: once the ant has left home (path length at
least 2) and nodes remain, the ant's current node (the last of its path) is
still a member of its `remaining` set — it is removed only after the next
selection. -/
def AntMidInv (a : Ant) : Prop :=
  2 ≤ a.path.length → a.remaining ≠ [] → a.path.getLastD 0 ∈ a.remaining

/-- One arrival preserves the mid-tour invariant for every ant. -/
theorem arriveAnt_midInv (P : RunParams) (st : SolveState) (i : ℕ) (a : Ant)
    (h : ∀ x ∈ st.ants, AntMidInv x) :
    ∀ x ∈ (arriveAnt P st i a).ants, AntMidInv x := by
  simp only [arriveAnt]
  split
  · refine all_of_set h ?_
    intro h2 _
    simp at h2
  · refine all_of_set h ?_
    intro _ hrem
    rw [List.getLastD_concat]
    cases hrr : a.remaining with
    | nil =>
      rw [hrr] at hrem
      exact absurd rfl hrem
    | cons r rs =>
      rw [hrr] at hrem
      by_cases hc : (r :: rs).filter (fun v => v ≠ a.path.getLastD 0) = []
      · exact absurd hc hrem
      · exact nextNode_mem_cands P.fpow P.cfg.pheromonePower st.pheromones P.dcost
          a.path r rs (st.rands.headD 0) hc

/-- Arrival by index preserves the mid-tour invariant for every ant. -/
theorem arrive_midInv (P : RunParams) (st : SolveState) (i : ℕ)
    (h : ∀ x ∈ st.ants, AntMidInv x) :
    ∀ x ∈ (arrive P st i).ants, AntMidInv x := by
  simp only [arrive]
  cases hg : st.ants.get? i with
  | none => exact h
  | some a => exact arriveAnt_midInv P st i a h

/-- One epoch preserves the mid-tour invariant for every ant. -/
theorem epochStep_midInv (P : RunParams) (st : SolveState)
    (h : ∀ x ∈ st.ants, AntMidInv x) :
    ∀ x ∈ (epochStep P st).ants, AntMidInv x := by
  simp only [epochStep]
  refine foldl_preserve (arrive P) (fun s => ∀ x ∈ s.ants, AntMidInv x)
    (fun s x hq => arrive_midInv P s x hq) _ _ ?_
  refine all_of_map (fun a ha => ?_) h
  by_cases hc : antTravelling P a = true
  · rw [if_pos hc]
    exact ha
  · rw [if_neg hc]
    exact ha

/-- The initial swarm satisfies the mid-tour invariant (every path is just
the home node). -/
theorem initState_midInv (P : RunParams) (rands : List ℚ) :
    ∀ x ∈ (initState P rands).ants, AntMidInv x := by
  intro x hx
  have hxe := List.eq_of_mem_replicate hx
  subst hxe
  intro h2 _
  simp at h2

/-- C4 (amended).  The claim that the current node is never in `remaining`
when `next_node` is invoked fails on the code (the current node is removed
only after selection, aco.py line 153); what holds instead is the opposite
mid-tour invariant: initially and after every epoch, any ant that has left
home and still has remaining nodes has its current node *inside* its
`remaining` set, so the candidate loop's exclusion of the current node is
load-bearing. -/
theorem c4_current_node_in_remaining :
    (∀ P rands, ∀ x ∈ (initState P rands).ants, AntMidInv x) ∧
    (∀ P st i, (∀ x ∈ st.ants, AntMidInv x) → ∀ x ∈ (arrive P st i).ants, AntMidInv x) ∧
    (∀ P st, (∀ x ∈ st.ants, AntMidInv x) → ∀ x ∈ (epochStep P st).ants, AntMidInv x) :=
  ⟨initState_midInv, arrive_midInv, epochStep_midInv⟩

/-- An in-bounds `getD` is a member of the list. -/
theorem getD_mem' {α : Type} : ∀ (l : List α) (n : ℕ) (d : α), n < l.length → l.getD n d ∈ l
  | [], _, _, h => absurd h (by simp)
  | x :: xs, 0, d, _ => List.mem_cons_self x xs
  | _ :: xs, n + 1, d, h =>
    List.mem_cons_of_mem _ (getD_mem' xs n d (by simpa using h))

/-- Witness for C4: the mid-tour invariant holds for the ant of the two-node
run after its first epoch (where its current node 1 is indeed inside its
remaining set `[1]`). -/
theorem c4_current_node_in_remaining_witness :
    AntMidInv ((epochStep pA (initState pA r20)).ants.getD 0 default) := by
  have h1 := c4_current_node_in_remaining.1 pA r20
  have h2 := c4_current_node_in_remaining.2.2 pA (initState pA r20) h1
  exact h2 _ (getD_mem' _ 0 default (by with_unfolding_all decide))

/-! ### Claim theorems: termination policy -/

/-- C3 (amended).  Once at least one tour has completed and `time` is a
positive budget `T`, the termination decision is exactly `clock > T`: the run
continues whenever elapsed time is at most `T` (even if `max_round_trips` or
`max_ants` would otherwise stop it) and stops whenever elapsed time strictly
exceeds `T` (even if `min_round_trips` or `min_ants` is unmet).  The code
uses a strict comparison, so at elapsed time exactly `T` the run continues. -/
theorem c3_time_budget_overrides (cfg : Config) (clock : ℚ) (bestEpochs : List ℕ)
    (rt used : ℤ) (epoch : ℕ) (hT : 0 < cfg.time) (hne : bestEpochs ≠ []) :
    shouldBreak cfg clock bestEpochs rt used epoch = decide (clock > (cfg.time : ℚ)) := by
  have h0 : cfg.time ≠ 0 := ne_of_gt hT
  obtain ⟨e, es, rfl⟩ : ∃ e es, bestEpochs = e :: es := by
    cases bestEpochs with
    | nil => exact absurd rfl hne
    | cons e es => exact ⟨e, es, rfl⟩
  simp [shouldBreak, h0]

/-- Witness for C3: with `time = 5`, one completed tour and elapsed clock 7,
the termination decision equals `7 > 5`, i.e. stop. -/
theorem c3_time_budget_overrides_witness :
    0 < cfgT.time ∧ (([1] : List ℕ) ≠ []) ∧
    shouldBreak cfgT 7 [1] 0 0 3 = decide ((7 : ℚ) > (cfgT.time : ℚ)) := by
  exact ⟨by with_unfolding_all decide, by simp,
    c3_time_budget_overrides cfgT 7 [1] 0 0 3 (by with_unfolding_all decide) (by simp)⟩

/-- Witness for C10: on arguments with `min_round_trips = 7`,
`max_round_trips = 3`, `min_ants = 5`, `max_ants = 2`, all four constructed
bounds are nonzero and the normalized minima are below the maxima. -/
theorem c10_min_bounds_normalized_witness :
    (mkConfig fpowLin argsW).minRoundTrips ≠ 0 ∧
    (mkConfig fpowLin argsW).maxRoundTrips ≠ 0 ∧
    (mkConfig fpowLin argsW).minAnts ≠ 0 ∧
    (mkConfig fpowLin argsW).maxAnts ≠ 0 ∧
    (mkConfig fpowLin argsW).minRoundTrips ≤ (mkConfig fpowLin argsW).maxRoundTrips ∧
    (mkConfig fpowLin argsW).minAnts ≤ (mkConfig fpowLin argsW).maxAnts := by
  refine ⟨by with_unfolding_all decide, by with_unfolding_all decide,
    by with_unfolding_all decide, by with_unfolding_all decide, ?_, ?_⟩
  · exact (c10_min_bounds_normalized fpowLin argsW).1
      (by with_unfolding_all decide) (by with_unfolding_all decide)
  · exact (c10_min_bounds_normalized fpowLin argsW).2
      (by with_unfolding_all decide) (by with_unfolding_all decide)

end ACO
